import Mathlib

/-!
Verification of the sqlnt named-SQL-template library.

The definitions below are a shallow embedding of the Go source:
named_template.go (the `namedTemplate` struct, `Args`, `OmissibleArgs`,
`DefaultValue`, `NullableStringArgs`, `GetArgsInfo`, `Append`),
named_template_build.go (`buildArgs`, `replaceTokens`, `isNameRune`,
`addNamedArg`, `addNamedArgPositional`, `addNamedArgNonPositional`) and
named_arg.go (`namedArg`, `toInfo`, `setOmissible`, `value`,
`defaultedValue`).

Go `any` values that can flow through argument binding are modelled by
`GoVal`; a Go `map[string]any` (the merged argument mapping produced by
`mappedArgs`) is modelled as a lookup function `String → Option GoVal`;
the registry `map[string]*namedArg` is modelled as an association list in
first-insertion order (Go map iteration order is arbitrary, so theorems
about order sensitivity quantify over permutations of this list).
Character scans use explicit fuel (always called with enough fuel, one
unit per loop iteration) so that every definition computes by kernel
reduction.
-/

/-- Model of the Go `any` values relevant to argument binding: strings,
pointers-to-string (`*string`, possibly nil), integers, `nil`, and a
catch-all for other opaque values. -/
inductive GoVal where
  | nil : GoVal
  | str (s : String) : GoVal
  | ptrStr (p : Option String) : GoVal
  | int (i : Int) : GoVal
  | other (tag : String) : GoVal
deriving DecidableEq

/-- Model of `DefaultValueFunc func(name string) any`. -/
def DefaultValueFunc := String → GoVal

/-- Model of `TokenOption.Replace(token string) (string, bool)`:
`none` when the option does not recognise the token. -/
def TokenOption := String → Option String

/-- Model of the `namedArg` struct of named_arg.go. -/
structure NamedArg where
  tag : String
  positions : List Nat
  omissible : Bool
  defValue : Option DefaultValueFunc
  nullableString : Bool

/-- Model of `namedArg.setOmissible`: the flag can only be set while not
yet omissible (it is monotone). -/
def NamedArg.setOmissible (a : NamedArg) (omissible : Bool) : NamedArg :=
  if !a.omissible then { a with omissible := omissible } else a

/-- Model of `namedArg.value` of named_arg.go. Go dereferences a
`*string` without a nil check; a nil-pointer dereference panic is
modelled as `none`. -/
def NamedArg.value (a : NamedArg) (v : GoVal) : Option GoVal :=
  if a.nullableString then
    match v with
    | .str s => if s = "" then some .nil else some v
    | .ptrStr none => none
    | .ptrStr (some s) => if s = "" then some .nil else some v
    | _ => some v
  else
    some v

/-- Model of the `namedTemplate` struct of named_template.go. -/
structure NamedTemplate where
  originalStatement : String
  statement : String
  args : List (String × NamedArg)
  argsCount : Nat
  usePositionalTags : Bool
  argTag : String
  tokenOptions : List TokenOption

/-- Association-list lookup, modelling `n.args[name]` on the Go map. -/
def lookupArg (args : List (String × NamedArg)) (name : String) : Option NamedArg :=
  (args.find? (fun e => e.1 = name)).map (fun e => e.2)

/-- In-place update of the entry stored under `name` (a no-op when the
name has no entry), modelling mutation through the `*namedArg` pointer
held in the Go map. -/
def updateArg (args : List (String × NamedArg)) (name : String) (f : NamedArg → NamedArg) :
    List (String × NamedArg) :=
  args.map fun e => if e.1 = name then (e.1, f e.2) else e

/-- Intermediate compiler state: the registry and `argsCount`, mutated by
`addNamedArg` while `buildArgs` scans. -/
structure BuildState where
  args : List (String × NamedArg)
  argsCount : Nat

/-- Model of `namedTemplate.addNamedArgPositional` of
named_template_build.go. -/
def addNamedArgPositional (argTag : String) (st : BuildState) (name : String)
    (omissible : Bool) : BuildState × String :=
  match lookupArg st.args name with
  | some arg =>
      ({ st with args := updateArg st.args name (fun a => a.setOmissible omissible) }, arg.tag)
  | none =>
      let tag := argTag ++ toString (st.argsCount + 1)
      ({ args := st.args ++ [(name,
           { tag := tag, positions := [st.argsCount], omissible := omissible,
             defValue := none, nullableString := false })],
         argsCount := st.argsCount + 1 }, tag)

/-- Model of `namedTemplate.addNamedArgNonPositional` of
named_template_build.go. -/
def addNamedArgNonPositional (argTag : String) (st : BuildState) (name : String)
    (omissible : Bool) : BuildState × String :=
  match lookupArg st.args name with
  | some _ =>
      ({ args := updateArg st.args name (fun a =>
           let a' := a.setOmissible omissible
           { a' with positions := a'.positions ++ [st.argsCount] }),
         argsCount := st.argsCount + 1 }, argTag)
  | none =>
      ({ args := st.args ++ [(name,
           { tag := argTag, positions := [st.argsCount], omissible := omissible,
             defValue := none, nullableString := false })],
         argsCount := st.argsCount + 1 }, argTag)

/-- Model of `namedTemplate.addNamedArg` of named_template_build.go. -/
def addNamedArg (usePositionalTags : Bool) (argTag : String) (st : BuildState)
    (name : String) (omissible : Bool) : BuildState × String :=
  if usePositionalTags then addNamedArgPositional argTag st name omissible
  else addNamedArgNonPositional argTag st name omissible

/-- Model of `isNameRune` of named_template_build.go. -/
def isNameRune (r : Char) : Bool :=
  r = '_' || r = '-' || r = '.' || ('0' ≤ r && r ≤ '9') || ('a' ≤ r && r ≤ 'z')
    || ('A' ≤ r && r ≤ 'Z')

/-- The character-scan loop of `namedTemplate.buildArgs` of
named_template_build.go, carrying the output builder, the registry state
and the current rune position (used in the malformed-marker error).
`fuel` bounds the iteration count; each step consumes at least one rune,
and the loop is always entered with `fuel` = rune count + 1. -/
def scanLoop (usePositionalTags : Bool) (argTag : String) :
    Nat → List Char → Nat → String → BuildState → Except String (String × BuildState)
  | 0, _, _, _, _ => .error "out of fuel"
  | fuel + 1, text, pos, out, st =>
      match text with
      | [] => .ok (out, st)
      | c :: rest =>
          if c = ':' then
            if rest.head? = some ':' then
              scanLoop usePositionalTags argTag fuel rest.tail (pos + 2) (out.push ':') st
            else
              let nameRun := rest.takeWhile isNameRune
              if nameRun.length = 0 then
                .error ("named marker ':' without name (at position " ++ toString pos ++ ")")
              else
                let after := rest.drop nameRun.length
                if after.head? = some '?' then
                  let r := addNamedArg usePositionalTags argTag st (String.mk nameRun) true
                  scanLoop usePositionalTags argTag fuel after.tail (pos + nameRun.length + 2)
                    (out ++ r.2) r.1
                else
                  let r := addNamedArg usePositionalTags argTag st (String.mk nameRun) false
                  scanLoop usePositionalTags argTag fuel after (pos + nameRun.length + 1)
                    (out ++ r.2) r.1
          else
            scanLoop usePositionalTags argTag fuel rest (pos + 1) (out.push c) st

/-- First token option that recognises the token, modelling the loop
over `n.tokenOptions` in `replaceTokens`. -/
def lookupTokenOpt : List TokenOption → String → Option String
  | [], _ => none
  | tr :: rest, tok =>
      match tr tok with
      | some r => some r
      | none => lookupTokenOpt rest tok

/-- One pass of `tokenRegexp.ReplaceAllStringFunc` with the regexp
`\{\{([^}]*)}}`: scan left to right; at each `{{`, the token is the
maximal run of non-`}` characters, and it must be followed by `}}`.
Replacement text is not rescanned within the pass. Unrecognised tokens
are replaced by the empty string and collected (in encounter order) in
the second component, modelling the `errs` slice. -/
def replaceTokensCore (opts : List TokenOption) :
    Nat → List Char → List Char × List String
  | 0, text => (text, [])
  | _ + 1, [] => ([], [])
  | fuel + 1, '{' :: '{' :: rest =>
      let tokRun := rest.takeWhile (fun c => c ≠ '}')
      match rest.drop tokRun.length with
      | '}' :: '}' :: rest2 =>
          let tok := String.mk tokRun
          let r := replaceTokensCore opts fuel rest2
          match lookupTokenOpt opts tok with
          | some rep => (rep.data ++ r.1, r.2)
          | none => (r.1, tok :: r.2)
      | _ =>
          let r := replaceTokensCore opts fuel ('{' :: rest)
          ('{' :: r.1, r.2)
  | fuel + 1, c :: rest =>
      let r := replaceTokensCore opts fuel rest
      (c :: r.1, r.2)

/-- One full replacement pass over a string, returning the updated text
and the unresolved token names in encounter order. -/
def tokenPass (opts : List TokenOption) (text : String) : String × List String :=
  let r := replaceTokensCore opts (text.length + 1) text.data
  (String.mk r.1, r.2)

/-- Whether the adjacent character pair `a`,`b` occurs in the text,
modelling `strings.Contains(s, "ab")` for a two-character needle. -/
def containsPair (a b : Char) : List Char → Bool
  | [] => false
  | [_] => false
  | c :: d :: rest => (c = a && d = b) || containsPair a b (d :: rest)

/-- The error produced from the collected unresolved-token names: the
`len(errs) == 1` / `len(errs) > 0` checks of `replaceTokens`. -/
def errsMessage : List String → Option String
  | [] => none
  | [e] => some ("unknown token: " ++ e)
  | es => some ("unknown tokens: " ++ String.intercalate ", " es)

/-- Model of `namedTemplate.replaceTokens` invoked with `first = false`:
one replacement pass, error checks, and no further repeat. -/
def replaceTokensFinal (opts : List TokenOption) (text : String) : Except String String :=
  let r := tokenPass opts text
  match errsMessage r.2 with
  | some msg => .error msg
  | none => .ok r.1

/-- Model of `namedTemplate.replaceTokens` invoked with `first = true`
(as `buildArgs` calls it): one replacement pass, error checks, then, if
the updated text still contains both `{{` and `}}`, exactly one more
pass (the recursive call with `first = false`). -/
def replaceTokens (opts : List TokenOption) (text : String) : Except String String :=
  let r := tokenPass opts text
  match errsMessage r.2 with
  | some msg => .error msg
  | none =>
      if containsPair '{' '{' r.1.data && containsPair '}' '}' r.1.data then
        replaceTokensFinal opts r.1
      else
        .ok r.1

/-- Model of `namedTemplate.buildArgs` of named_template_build.go: token
substitution (which rewrites `originalStatement` in place), then the
name-marker scan producing the rendered statement and the registry. -/
def NamedTemplate.buildArgs (n : NamedTemplate) : Except String NamedTemplate :=
  match replaceTokens n.tokenOptions n.originalStatement with
  | .error e => .error e
  | .ok text =>
      match scanLoop n.usePositionalTags n.argTag (text.length + 1) text.data 0 "" ⟨[], 0⟩ with
      | .error e => .error e
      | .ok r =>
          .ok { n with originalStatement := text, statement := r.1,
                       args := r.2.args, argsCount := r.2.argsCount }

/-- Model of `newNamedTemplate` of named_template.go. -/
def newNamedTemplate (statement : String) (usePositionalTags : Bool) (argTag : String)
    (tokenOptions : List TokenOption) : NamedTemplate :=
  { originalStatement := statement, statement := "", args := [], argsCount := 0,
    usePositionalTags := usePositionalTags, argTag := argTag, tokenOptions := tokenOptions }

/-- Model of `NewNamedTemplate` of named_template.go (with the option
already resolved to its `UsePositionalTags`/`ArgTag` values). -/
def NewNamedTemplate (statement : String) (usePositionalTags : Bool) (argTag : String)
    (tokenOptions : List TokenOption) : Except String NamedTemplate :=
  (newNamedTemplate statement usePositionalTags argTag tokenOptions).buildArgs

/-- Outcome of `namedTemplate.Args`: a positional value slice, a Go
error, or a runtime panic (the unguarded nil `*string` dereference in
`namedArg.value`). -/
inductive ArgsResult where
  | panicNilDeref : ArgsResult
  | err (msg : String) : ArgsResult
  | ok (out : List GoVal) : ArgsResult
deriving DecidableEq

/-- The write loop `for _, posn := range arg.positions { out[posn] = v }`
of `namedTemplate.Args`. -/
def writeAll (out : List GoVal) (posns : List Nat) (v : GoVal) : List GoVal :=
  posns.foldl (fun o p => o.set p v) out

/-- The registry walk of `namedTemplate.Args` of named_template.go:
value found (apply `namedArg.value`, write every position), else error
when not omissible, else default provider (through `defaultedValue`,
which also applies `namedArg.value`), else leave the positions alone. -/
def argsLoop (mapped : String → Option GoVal) :
    List (String × NamedArg) → List GoVal → ArgsResult
  | [], out => .ok out
  | (name, arg) :: rest, out =>
      match mapped name with
      | some v =>
          match arg.value v with
          | none => .panicNilDeref
          | some av => argsLoop mapped rest (writeAll out arg.positions av)
      | none =>
          if !arg.omissible then
            .err ("named arg '" ++ name ++ "' missing")
          else
            match arg.defValue with
            | some f =>
                match arg.value (f name) with
                | none => .panicNilDeref
                | some v => argsLoop mapped rest (writeAll out arg.positions v)
            | none => argsLoop mapped rest out

/-- Model of `namedTemplate.Args` of named_template.go, taking the
merged name-to-value mapping produced by `mappedArgs` as a lookup
function. `out := make([]any, n.argsCount)` starts every slot at nil. -/
def NamedTemplate.Args (n : NamedTemplate) (mapped : String → Option GoVal) : ArgsResult :=
  argsLoop mapped n.args (List.replicate n.argsCount GoVal.nil)

/-- Model of `namedTemplate.OmissibleArgs` of named_template.go: no
names means every registered arg, otherwise only names that have an
entry. -/
def NamedTemplate.OmissibleArgs (n : NamedTemplate) (names : List String) : NamedTemplate :=
  if names.isEmpty then
    { n with args := n.args.map fun e => (e.1, { e.2 with omissible := true }) }
  else
    let newArgs :=
      names.foldl (fun acc name => updateArg acc name (fun a => { a with omissible := true }))
        n.args
    { n with args := newArgs }

/-- The `v any` parameter of `DefaultValue`: either already a
`func(name string) any` or a plain value wrapped into one. -/
inductive DefaultGiven where
  | fn (f : DefaultValueFunc) : DefaultGiven
  | plain (v : GoVal) : DefaultGiven

/-- Model of `namedTemplate.DefaultValue` of named_template.go: only
acts when the name has an entry; sets omissible and installs the
provider (wrapping a plain value into a constant function). -/
def NamedTemplate.DefaultValue (n : NamedTemplate) (name : String) (v : DefaultGiven) :
    NamedTemplate :=
  { n with args := updateArg n.args name fun a =>
      match v with
      | .fn f => { a with omissible := true, defValue := some f }
      | .plain gv => { a with omissible := true, defValue := some (fun _ => gv) } }

/-- Model of `namedTemplate.NullableStringArgs` of named_template.go:
only names that have an entry are flagged. -/
def NamedTemplate.NullableStringArgs (n : NamedTemplate) (names : List String) : NamedTemplate :=
  let newArgs :=
    names.foldl (fun acc name => updateArg acc name (fun a => { a with nullableString := true }))
      n.args
  { n with args := newArgs }

/-- Model of `namedTemplate.Append` of named_template.go: recompile the
concatenation, then for every source name still present copy `omissible`
and `defValue` onto the fresh entry (the Go loop copies exactly those
two fields). -/
def NamedTemplate.Append (n : NamedTemplate) (portion : String) : Except String NamedTemplate :=
  match (newNamedTemplate (n.originalStatement ++ portion) n.usePositionalTags n.argTag
      n.tokenOptions).buildArgs with
  | .error e => .error e
  | .ok result =>
      let newArgs :=
        n.args.foldl
          (fun racc e => updateArg racc e.1
            (fun ra => { ra with omissible := e.2.omissible, defValue := e.2.defValue }))
          result.args
      .ok { result with args := newArgs }

/-! ### Helper lemmas about the registry association list -/

theorem lookupArg_eq_none_iff (args : List (String × NamedArg)) (name : String) :
    lookupArg args name = none ↔ ∀ e ∈ args, e.1 ≠ name := by
  simp [lookupArg, List.find?_eq_none]

theorem updateArg_of_not_mem (args : List (String × NamedArg)) (name : String)
    (f : NamedArg → NamedArg) (h : ∀ e ∈ args, e.1 ≠ name) :
    updateArg args name f = args := by
  induction args with
  | nil => rfl
  | cons e rest ih =>
      have he : ¬(e.1 = name) := h e (List.mem_cons_self e rest)
      simp only [updateArg, List.map_cons, if_neg he]
      have := ih (fun x hx => h x (List.mem_cons_of_mem e hx))
      simp only [updateArg] at this
      rw [this]

/-- Concrete compiled template for the template text `:a` under the
non-numbered `?` dialect (the result of `NewNamedTemplate ":a" false "?" []`). -/
def exampleTemplateA : NamedTemplate :=
  { originalStatement := ":a", statement := "?",
    args := [("a", { tag := "?", positions := [0], omissible := false,
                     defValue := none, nullableString := false })],
    argsCount := 1, usePositionalTags := false, argTag := "?", tokenOptions := [] }

/-- Claim C10: calling OmissibleArgs with an explicit name, DefaultValue,
or NullableStringArgs with a name that has no registry entry is a silent
no-op: the template (registry, flags, providers, positions, statement) is
returned unchanged and no error arises. -/
theorem claim_C10_unknown_name_noop (n : NamedTemplate) (name : String) (v : DefaultGiven)
    (h : lookupArg n.args name = none) :
    n.OmissibleArgs [name] = n ∧ n.DefaultValue name v = n ∧
      n.NullableStringArgs [name] = n := by
  have hne : ∀ e ∈ n.args, e.1 ≠ name := (lookupArg_eq_none_iff n.args name).mp h
  have hupd : ∀ f, updateArg n.args name f = n.args :=
    fun f => updateArg_of_not_mem n.args name f hne
  refine ⟨?_, ?_, ?_⟩
  · simp [NamedTemplate.OmissibleArgs, hupd]
  · simp [NamedTemplate.DefaultValue, hupd]
  · simp [NamedTemplate.NullableStringArgs, hupd]

/-- Witness for C10: the concrete template compiled from `:a` with the
unknown name `zzz`. -/
theorem claim_C10_witness :
    lookupArg exampleTemplateA.args "zzz" = none ∧
      (exampleTemplateA.OmissibleArgs ["zzz"] = exampleTemplateA ∧
       exampleTemplateA.DefaultValue "zzz" (.plain GoVal.nil) = exampleTemplateA ∧
       exampleTemplateA.NullableStringArgs ["zzz"] = exampleTemplateA) :=
  ⟨rfl, claim_C10_unknown_name_noop exampleTemplateA "zzz" (.plain GoVal.nil) rfl⟩

/-- Claim C9: for an arg flagged nullable-string, a nil `*string` value
makes `namedArg.value` dereference a nil pointer (modelled as `none`, a
panic), and `Args` therefore panics rather than returning a value or an
error; this happens both for a directly supplied value and for one
produced by the arg's default provider. -/
theorem claim_C9_nil_ptrstring_panics :
    (∀ a : NamedArg, a.nullableString = true → a.value (GoVal.ptrStr none) = none) ∧
    ((NewNamedTemplate ":a" false "?" []).map (fun t =>
        (t.NullableStringArgs ["a"]).Args
          (fun s => if s = "a" then some (.ptrStr none) else none)))
      = .ok .panicNilDeref ∧
    argsLoop (fun _ => none)
        [("a", { tag := "?", positions := [0], omissible := true,
                 defValue := some (fun _ => GoVal.ptrStr none), nullableString := true })]
        [GoVal.nil]
      = .panicNilDeref := by
  refine ⟨?_, rfl, rfl⟩
  intro a h
  simp [NamedArg.value, h]

/-- Witness for C9: the nullable-string entry compiled from `:a`. -/
theorem claim_C9_witness :
    ({ tag := "?", positions := [0], omissible := false, defValue := none,
       nullableString := true } : NamedArg).value (GoVal.ptrStr none) = none :=
  claim_C9_nil_ptrstring_panics.1 _ rfl

/-! ### Field-preservation lemmas for setOmissible -/

theorem setOmissible_defValue (a : NamedArg) (om : Bool) :
    (a.setOmissible om).defValue = a.defValue := by
  unfold NamedArg.setOmissible; split <;> rfl

theorem setOmissible_nullableString (a : NamedArg) (om : Bool) :
    (a.setOmissible om).nullableString = a.nullableString := by
  unfold NamedArg.setOmissible; split <;> rfl

theorem setOmissible_positions (a : NamedArg) (om : Bool) :
    (a.setOmissible om).positions = a.positions := by
  unfold NamedArg.setOmissible; split <;> rfl

theorem setOmissible_tag (a : NamedArg) (om : Bool) :
    (a.setOmissible om).tag = a.tag := by
  unfold NamedArg.setOmissible; split <;> rfl

/-! ### Freshness: a compile never installs defaults or nullable-string flags -/

/-- Entries as produced by a fresh compile: no default provider and not
nullable-string (those are only ever set by the post-compile mutators). -/
def FreshArgs (args : List (String × NamedArg)) : Prop :=
  ∀ e ∈ args, e.2.defValue = none ∧ e.2.nullableString = false

theorem freshArgs_update (args : List (String × NamedArg)) (name : String)
    (f : NamedArg → NamedArg) (h : FreshArgs args)
    (hf : ∀ a, (f a).defValue = a.defValue ∧ (f a).nullableString = a.nullableString) :
    FreshArgs (updateArg args name f) := by
  intro e he
  simp only [updateArg, List.mem_map] at he
  obtain ⟨x, hx, hxe⟩ := he
  by_cases hk : x.1 = name
  · rw [if_pos hk] at hxe
    subst hxe
    exact ⟨((hf x.2).1).trans (h x hx).1, ((hf x.2).2).trans (h x hx).2⟩
  · rw [if_neg hk] at hxe
    subst hxe
    exact h x hx

theorem freshArgs_snoc (args : List (String × NamedArg)) (e : String × NamedArg)
    (h : FreshArgs args) (he : e.2.defValue = none ∧ e.2.nullableString = false) :
    FreshArgs (args ++ [e]) := by
  intro x hx
  rcases List.mem_append.mp hx with h1 | h2
  · exact h x h1
  · rw [List.mem_singleton.mp h2]
    exact he

theorem freshArgs_addNamedArgPositional (tag : String) (st : BuildState) (name : String)
    (om : Bool) (h : FreshArgs st.args) :
    FreshArgs (addNamedArgPositional tag st name om).1.args := by
  unfold addNamedArgPositional
  cases hl : lookupArg st.args name <;> dsimp only
  · exact freshArgs_snoc _ _ h ⟨rfl, rfl⟩
  · exact freshArgs_update _ _ _ h
      (fun a => ⟨setOmissible_defValue a om, setOmissible_nullableString a om⟩)

theorem freshArgs_addNamedArgNonPositional (tag : String) (st : BuildState) (name : String)
    (om : Bool) (h : FreshArgs st.args) :
    FreshArgs (addNamedArgNonPositional tag st name om).1.args := by
  unfold addNamedArgNonPositional
  cases hl : lookupArg st.args name <;> dsimp only
  · exact freshArgs_snoc _ _ h ⟨rfl, rfl⟩
  · exact freshArgs_update _ _ _ h
      (fun a => ⟨setOmissible_defValue a om, setOmissible_nullableString a om⟩)

theorem freshArgs_addNamedArg (u : Bool) (tag : String) (st : BuildState) (name : String)
    (om : Bool) (h : FreshArgs st.args) :
    FreshArgs (addNamedArg u tag st name om).1.args := by
  unfold addNamedArg
  cases u
  · simp only [Bool.false_eq_true, if_false]
    exact freshArgs_addNamedArgNonPositional tag st name om h
  · simp only [if_true]
    exact freshArgs_addNamedArgPositional tag st name om h

theorem scanLoop_fresh (u : Bool) (tag : String) :
    ∀ fuel text pos out st out' st',
      FreshArgs st.args →
      scanLoop u tag fuel text pos out st = .ok (out', st') →
      FreshArgs st'.args := by
  intro fuel
  induction fuel with
  | zero => intro text pos out st out' st' _ h; simp [scanLoop] at h
  | succ fuel ih =>
      intro text pos out st out' st' hf h
      cases text with
      | nil =>
          simp only [scanLoop, Except.ok.injEq, Prod.mk.injEq] at h
          rw [← h.2]
          exact hf
      | cons c rest =>
          simp only [scanLoop] at h
          by_cases hc : c = ':'
          · rw [if_pos hc] at h
            by_cases hh : rest.head? = some ':'
            · rw [if_pos hh] at h
              exact ih _ _ _ _ _ _ hf h
            · rw [if_neg hh] at h
              by_cases hn : (rest.takeWhile isNameRune).length = 0
              · rw [if_pos hn] at h
                simp at h
              · rw [if_neg hn] at h
                by_cases hq : (rest.drop (rest.takeWhile isNameRune).length).head? = some '?'
                · rw [if_pos hq] at h
                  exact ih _ _ _ _ _ _ (freshArgs_addNamedArg u tag st _ true hf) h
                · rw [if_neg hq] at h
                  exact ih _ _ _ _ _ _ (freshArgs_addNamedArg u tag st _ false hf) h
          · rw [if_neg hc] at h
            exact ih _ _ _ _ _ _ hf h

theorem buildArgs_fresh (n t : NamedTemplate) (h : n.buildArgs = .ok t) :
    FreshArgs t.args := by
  unfold NamedTemplate.buildArgs at h
  cases htok : replaceTokens n.tokenOptions n.originalStatement with
  | error e => rw [htok] at h; simp at h
  | ok text =>
      rw [htok] at h
      dsimp only at h
      cases hscan : scanLoop n.usePositionalTags n.argTag (text.length + 1) text.data 0 "" ⟨[], 0⟩ with
      | error e => rw [hscan] at h; simp at h
      | ok r =>
          rw [hscan] at h
          simp only [Except.ok.injEq] at h
          have hfr : FreshArgs r.2.args :=
            scanLoop_fresh n.usePositionalTags n.argTag _ _ _ _ _ _ _
              (fun e he => absurd he (List.not_mem_nil e)) hscan
          rw [← h]
          exact hfr

/-! ### Lookup lemmas for updates and the Append copy loop -/

theorem lookupArg_pair_cons (k : String) (a : NamedArg) (rest : List (String × NamedArg))
    (name : String) :
    lookupArg ((k, a) :: rest) name = if k = name then some a else lookupArg rest name := by
  by_cases h : k = name
  · simp [lookupArg, List.find?_cons, h]
  · simp [lookupArg, List.find?_cons, h]

theorem lookupArg_updateArg_ne (l : List (String × NamedArg)) (k name : String)
    (f : NamedArg → NamedArg) (h : k ≠ name) :
    lookupArg (updateArg l k f) name = lookupArg l name := by
  induction l with
  | nil => rfl
  | cons e rest ih =>
      obtain ⟨k', a'⟩ := e
      simp only [updateArg, List.map_cons] at *
      by_cases hk : k' = k
      · rw [if_pos (by simpa using hk)]
        rw [lookupArg_pair_cons, lookupArg_pair_cons]
        have hne : ¬(k' = name) := by rw [hk]; exact h
        rw [if_neg hne, if_neg hne, ih]
      · rw [if_neg (by simpa using hk)]
        rw [lookupArg_pair_cons, lookupArg_pair_cons]
        by_cases hn : k' = name
        · rw [if_pos hn, if_pos hn]
        · rw [if_neg hn, if_neg hn, ih]

theorem lookupArg_updateArg_self (l : List (String × NamedArg)) (name : String)
    (f : NamedArg → NamedArg) :
    lookupArg (updateArg l name f) name = (lookupArg l name).map f := by
  induction l with
  | nil => rfl
  | cons e rest ih =>
      obtain ⟨k', a'⟩ := e
      simp only [updateArg, List.map_cons] at *
      by_cases hk : k' = name
      · rw [if_pos (by simpa using hk)]
        rw [lookupArg_pair_cons, lookupArg_pair_cons]
        rw [if_pos hk, if_pos hk]
        rfl
      · rw [if_neg (by simpa using hk)]
        rw [lookupArg_pair_cons, lookupArg_pair_cons]
        rw [if_neg hk, if_neg hk, ih]

theorem lookupArg_foldl_update_not_mem (g : (String × NamedArg) → NamedArg → NamedArg)
    (entries : List (String × NamedArg)) (base : List (String × NamedArg)) (name : String)
    (h : ∀ e ∈ entries, e.1 ≠ name) :
    lookupArg (entries.foldl (fun racc e => updateArg racc e.1 (g e)) base) name
      = lookupArg base name := by
  induction entries generalizing base with
  | nil => rfl
  | cons e rest ih =>
      rw [List.foldl_cons]
      rw [ih _ (fun x hx => h x (List.mem_cons_of_mem e hx))]
      exact lookupArg_updateArg_ne base e.1 name (g e) (h e (List.mem_cons_self e rest))

theorem lookupArg_foldl_update_find (g : (String × NamedArg) → NamedArg → NamedArg)
    (entries : List (String × NamedArg)) (base : List (String × NamedArg)) (name : String)
    (ent : String × NamedArg) (hnd : (entries.map Prod.fst).Nodup)
    (hfind : entries.find? (fun e => e.1 = name) = some ent) :
    lookupArg (entries.foldl (fun racc e => updateArg racc e.1 (g e)) base) name
      = (lookupArg base name).map (g ent) := by
  induction entries generalizing base with
  | nil => simp at hfind
  | cons e rest ih =>
      rw [List.foldl_cons]
      rw [List.map_cons] at hnd
      by_cases he : e.1 = name
      · have hent : e = ent := by
          rw [List.find?_cons_of_pos _ (by simpa using he)] at hfind
          exact Option.some.inj hfind
        have hnotin : e.1 ∉ rest.map Prod.fst := (List.nodup_cons.mp hnd).1
        have hrest : ∀ x ∈ rest, x.1 ≠ name := by
          intro x hx hxe
          exact hnotin (by
            rw [he, ← hxe]
            exact List.mem_map_of_mem Prod.fst hx)
        rw [lookupArg_foldl_update_not_mem g rest _ name hrest]
        rw [← hent]
        rw [← he]
        exact lookupArg_updateArg_self base e.1 (g e)
      · have hfind' : rest.find? (fun e => e.1 = name) = some ent := by
          rw [List.find?_cons_of_neg _ (by simpa using he)] at hfind
          exact hfind
        have hnd' : (rest.map Prod.fst).Nodup := (List.nodup_cons.mp hnd).2
        rw [ih _ hnd' hfind']
        rw [lookupArg_updateArg_ne base e.1 name (g e) he]

theorem lookupArg_some_mem (args : List (String × NamedArg)) (name : String) (a : NamedArg)
    (h : lookupArg args name = some a) :
    ∃ e ∈ args, e.1 = name ∧ e.2 = a := by
  obtain ⟨ent, hfind, hent2⟩ := Option.map_eq_some'.mp h
  exact ⟨ent, List.mem_of_find?_eq_some hfind, by simpa using List.find?_some hfind, hent2⟩

/-- Claim C4 (corrected): Append carries forward the source entry's
omissible flag and default-value provider for every name that still
exists, but NOT the nullable-string flag — the recompiled entry keeps the
fresh-compile value false (the Go copy loop in Append assigns only
omissible and defValue). -/
theorem claim_C4_append_carries_flags (n : NamedTemplate) (portion : String)
    (r : NamedTemplate) (hnd : (n.args.map Prod.fst).Nodup) (h : n.Append portion = .ok r) :
    ∀ name a ra, lookupArg n.args name = some a → lookupArg r.args name = some ra →
      ra.omissible = a.omissible ∧ ra.defValue = a.defValue ∧ ra.nullableString = false := by
  intro name a ra ha hra
  unfold NamedTemplate.Append at h
  cases hb : (newNamedTemplate (n.originalStatement ++ portion) n.usePositionalTags n.argTag
      n.tokenOptions).buildArgs with
  | error e => rw [hb] at h; simp at h
  | ok result =>
      rw [hb] at h
      dsimp only at h
      simp only [Except.ok.injEq] at h
      obtain ⟨ent, hfind, hent2⟩ := Option.map_eq_some'.mp ha
      have hfresh := buildArgs_fresh _ _ hb
      have hrargs : r.args = n.args.foldl
          (fun racc e => updateArg racc e.1
            (fun ra => { ra with omissible := e.2.omissible, defValue := e.2.defValue }))
          result.args := by
        rw [← h]
      rw [hrargs] at hra
      rw [lookupArg_foldl_update_find _ n.args result.args name ent hnd hfind] at hra
      obtain ⟨ra0, hra0, hra0e⟩ := Option.map_eq_some'.mp hra
      obtain ⟨e0, he0mem, _, he0v⟩ := lookupArg_some_mem _ _ _ hra0
      rw [← hra0e, ← hent2]
      refine ⟨rfl, rfl, ?_⟩
      show ra0.nullableString = false
      rw [← he0v]
      exact (hfresh e0 he0mem).2

/-- The template produced by appending the portion " :b" to the compiled
template for ":a". -/
def appendResultA : NamedTemplate :=
  { originalStatement := ":a :b", statement := "? ?",
    args := [("a", { tag := "?", positions := [0], omissible := false,
                     defValue := none, nullableString := false }),
             ("b", { tag := "?", positions := [1], omissible := false,
                     defValue := none, nullableString := false })],
    argsCount := 2, usePositionalTags := false, argTag := "?", tokenOptions := [] }

/-- Witness for the amended C4 at the concrete Append of " :b" to the
compiled ":a" template. -/
theorem claim_C4_witness :
    (exampleTemplateA.args.map Prod.fst).Nodup ∧
    exampleTemplateA.Append " :b" = .ok appendResultA ∧
    lookupArg exampleTemplateA.args "a"
      = some { tag := "?", positions := [0], omissible := false, defValue := none,
               nullableString := false } ∧
    lookupArg appendResultA.args "a"
      = some { tag := "?", positions := [0], omissible := false, defValue := none,
               nullableString := false } ∧
    (false = false ∧ (none : Option DefaultValueFunc) = none ∧ false = false) := by
  refine ⟨by decide, rfl, rfl, rfl, ?_⟩
  have := claim_C4_append_carries_flags exampleTemplateA " :b" appendResultA (by decide) rfl
    "a" { tag := "?", positions := [0], omissible := false, defValue := none,
          nullableString := false }
    { tag := "?", positions := [0], omissible := false, defValue := none,
      nullableString := false } rfl rfl
  exact this

/-- Counterexample for C4 as stated: compiling ":a", flagging "a" as
nullable-string, then appending " :b" yields a template whose entry for
"a" has nullableString = false — the flag is not carried forward. -/
theorem claim_C4_counterexample :
    ((NewNamedTemplate ":a" false "?" []).map (fun t =>
        (lookupArg (t.NullableStringArgs ["a"]).args "a").map NamedArg.nullableString))
      = .ok (some true) ∧
    ((NewNamedTemplate ":a" false "?" []).map (fun t =>
        ((t.NullableStringArgs ["a"]).Append " :b").map (fun r =>
          (lookupArg r.args "a").map NamedArg.nullableString)))
      = .ok (.ok (some false)) :=
  ⟨rfl, rfl⟩

/-! ### Token substitution: unresolved-token errors and the repeat pass -/

/-- Claim C6: when exactly one token name found no provider the compile
error reports that single name; when several found none, the error
reports all of them, comma-joined, in encounter order (witnessed
concretely by the last conjunct); the singular and plural messages can
never coincide. -/
theorem claim_C6_unresolved_token_errors (opts : List TokenOption) (text : String) :
    (∀ e, (tokenPass opts text).2 = [e] →
        replaceTokens opts text = .error ("unknown token: " ++ e)) ∧
    (∀ e1 e2 es, (tokenPass opts text).2 = e1 :: e2 :: es →
        replaceTokens opts text
          = .error ("unknown tokens: " ++ String.intercalate ", " (e1 :: e2 :: es))) ∧
    (∀ e es, ("unknown token: " ++ e) ≠ ("unknown tokens: " ++ es)) ∧
    (tokenPass [] "x \x7b\x7bfoo\x7d\x7d y \x7b\x7bbar\x7d\x7d z").2 = ["foo", "bar"] := by
  refine ⟨?_, ?_, ?_, rfl⟩
  · intro e h
    simp only [replaceTokens]
    rw [h]
    rfl
  · intro e1 e2 es h
    simp only [replaceTokens]
    rw [h]
    rfl
  · intro e es heq
    have hd := congrArg String.data heq
    rw [String.data_append, String.data_append] at hd
    have ht := congrArg (List.take 14) hd
    rw [List.take_append_of_le_length (by decide),
        List.take_append_of_le_length (by decide)] at ht
    exact absurd ht (by decide)

/-- Witness for C6: singular and plural unresolved tokens with no
providers, in text encounter order. -/
theorem claim_C6_witness :
    ((tokenPass ([] : List TokenOption) "\x7b\x7bfoo\x7d\x7d").2 = ["foo"] ∧
      replaceTokens [] "\x7b\x7bfoo\x7d\x7d" = .error ("unknown token: " ++ "foo")) ∧
    ((tokenPass ([] : List TokenOption) "\x7b\x7bunknown token\x7d\x7d \x7b\x7banother unknown\x7d\x7d").2
        = ["unknown token", "another unknown"] ∧
      replaceTokens [] "\x7b\x7bunknown token\x7d\x7d \x7b\x7banother unknown\x7d\x7d"
        = .error ("unknown tokens: "
            ++ String.intercalate ", " ["unknown token", "another unknown"])) ∧
    ("unknown token: " ++ "foo") ≠ ("unknown tokens: " ++ "foo") :=
  ⟨⟨rfl, (claim_C6_unresolved_token_errors [] "\x7b\x7bfoo\x7d\x7d").1 "foo" rfl⟩,
   ⟨rfl, (claim_C6_unresolved_token_errors [] "\x7b\x7bunknown token\x7d\x7d \x7b\x7banother unknown\x7d\x7d").2.1
      "unknown token" "another unknown" [] rfl⟩,
   (claim_C6_unresolved_token_errors [] "").2.2.1 "foo" "foo"⟩

/-- Claim C7 (corrected): the substitution pass repeats exactly once.
After a clean first pass whose output still contains both brace pairs,
exactly one more pass runs; that second pass never triggers a further
repeat, so token spans introduced by the second pass stay in the text
un-substituted and without error. -/
theorem claim_C7_single_repeat (opts : List TokenOption) (text : String)
    (hclean : (tokenPass opts text).2 = []) :
    ((containsPair '{' '{' (tokenPass opts text).1.data
        && containsPair '}' '}' (tokenPass opts text).1.data) = true →
      replaceTokens opts text = replaceTokensFinal opts (tokenPass opts text).1) ∧
    ((containsPair '{' '{' (tokenPass opts text).1.data
        && containsPair '}' '}' (tokenPass opts text).1.data) = false →
      replaceTokens opts text = .ok (tokenPass opts text).1) ∧
    ((tokenPass opts (tokenPass opts text).1).2 = [] →
      replaceTokensFinal opts (tokenPass opts text).1
        = .ok (tokenPass opts (tokenPass opts text).1).1) := by
  refine ⟨?_, ?_, ?_⟩
  · intro hpair
    simp only [replaceTokens]
    rw [hclean]
    show (if _ then _ else _) = _
    rw [if_pos hpair]
  · intro hpair
    simp only [replaceTokens]
    rw [hclean]
    show (if _ then _ else _) = _
    rw [if_neg (by simp [hpair])]
  · intro hclean2
    simp only [replaceTokensFinal]
    rw [hclean2]
    rfl

/-- Witness for the amended C7 at a depth-three nest: a resolves to a
span for b, which resolves to a span for c; after the single repeat the
literal span for c remains in the accepted output. -/
theorem claim_C7_witness :
    (tokenPass [fun t => if t = "a" then some "\x7b\x7bb\x7d\x7d" else if t = "b" then some "\x7b\x7bc\x7d\x7d"
        else if t = "c" then some "X" else none] "\x7b\x7ba\x7d\x7d").2 = [] ∧
    replaceTokens [fun t => if t = "a" then some "\x7b\x7bb\x7d\x7d" else if t = "b" then some "\x7b\x7bc\x7d\x7d"
        else if t = "c" then some "X" else none] "\x7b\x7ba\x7d\x7d" = .ok "\x7b\x7bc\x7d\x7d" := by
  constructor
  · rfl
  · have h := claim_C7_single_repeat
      [fun t => if t = "a" then some "\x7b\x7bb\x7d\x7d" else if t = "b" then some "\x7b\x7bc\x7d\x7d"
        else if t = "c" then some "X" else none] "\x7b\x7ba\x7d\x7d" rfl
    rw [h.1 rfl, h.2.2 rfl]
    rfl

/-- Counterexample for C7 as stated: with providers a resolving to the
span for b, b to the span for c, and c to plain text X, compiling the
template consisting of the single token span for a succeeds and leaves
the literal, still-resolvable span for c in the rendered statement —
nesting beyond depth two is neither fully resolved nor an error. -/
theorem claim_C7_counterexample :
    replaceTokens [fun t => if t = "a" then some "\x7b\x7bb\x7d\x7d" else if t = "b" then some "\x7b\x7bc\x7d\x7d"
        else if t = "c" then some "X" else none] "\x7b\x7ba\x7d\x7d" = .ok "\x7b\x7bc\x7d\x7d" ∧
    lookupTokenOpt [fun t => if t = "a" then some "\x7b\x7bb\x7d\x7d" else if t = "b" then some "\x7b\x7bc\x7d\x7d"
        else if t = "c" then some "X" else none] "c" = some "X" ∧
    ((NewNamedTemplate "\x7b\x7ba\x7d\x7d" false "?"
        [fun t => if t = "a" then some "\x7b\x7bb\x7d\x7d" else if t = "b" then some "\x7b\x7bc\x7d\x7d"
          else if t = "c" then some "X" else none]).map
      (fun t => t.statement)) = .ok "\x7b\x7bc\x7d\x7d" :=
  ⟨rfl, rfl, rfl⟩

/-! ### The position/tag invariant maintained by the compiler -/

/-- All slot indices referenced by the registry, in entry order. -/
def allPositions (args : List (String × NamedArg)) : List Nat :=
  (args.map (fun e => e.2.positions)).flatten

theorem allPositions_cons (e : String × NamedArg) (l : List (String × NamedArg)) :
    allPositions (e :: l) = e.2.positions ++ allPositions l := by
  simp [allPositions]

theorem allPositions_append_singleton (l : List (String × NamedArg)) (e : String × NamedArg) :
    allPositions (l ++ [e]) = allPositions l ++ e.2.positions := by
  simp [allPositions]

theorem updateArg_map_fst (l : List (String × NamedArg)) (k : String)
    (f : NamedArg → NamedArg) : (updateArg l k f).map Prod.fst = l.map Prod.fst := by
  induction l with
  | nil => rfl
  | cons e rest ih =>
      simp only [updateArg, List.map_cons] at *
      by_cases hk : e.1 = k
      · rw [if_pos hk, ih]
      · rw [if_neg hk, ih]

theorem allPositions_updateArg_presv (l : List (String × NamedArg)) (name : String)
    (f : NamedArg → NamedArg) (hf : ∀ a, (f a).positions = a.positions) :
    allPositions (updateArg l name f) = allPositions l := by
  induction l with
  | nil => rfl
  | cons e rest ih =>
      simp only [updateArg, List.map_cons] at *
      by_cases hk : e.1 = name
      · rw [if_pos hk]
        rw [allPositions_cons, allPositions_cons]
        rw [ih]
        show (f e.2).positions ++ _ = _
        rw [hf e.2]
      · rw [if_neg hk]
        rw [allPositions_cons, allPositions_cons, ih]

theorem map_projs_updateArg (l : List (String × NamedArg)) (name : String)
    (f : NamedArg → NamedArg) (hf : ∀ a, (f a).positions = a.positions ∧ (f a).tag = a.tag) :
    (updateArg l name f).map (fun e => (e.2.positions, e.2.tag))
      = l.map (fun e => (e.2.positions, e.2.tag)) := by
  induction l with
  | nil => rfl
  | cons e rest ih =>
      simp only [updateArg, List.map_cons] at *
      by_cases hk : e.1 = name
      · rw [if_pos hk, ih]
        show ((f e.2).positions, (f e.2).tag) :: _ = _
        rw [(hf e.2).1, (hf e.2).2]
      · rw [if_neg hk, ih]

theorem allPositions_updateArg_add (l : List (String × NamedArg)) (name : String) (k : Nat)
    (f : NamedArg → NamedArg) (hf : ∀ a, (f a).positions = a.positions ++ [k])
    (hnd : (l.map Prod.fst).Nodup) (hsome : lookupArg l name ≠ none) :
    (↑(allPositions (updateArg l name f)) : Multiset Nat)
      = ↑(allPositions l) + ↑([k] : List Nat) := by
  induction l with
  | nil => exact absurd rfl hsome
  | cons e rest ih =>
      rw [List.map_cons] at hnd
      simp only [updateArg, List.map_cons] at *
      by_cases hk : e.1 = name
      · rw [if_pos hk]
        have hnotin : e.1 ∉ rest.map Prod.fst := (List.nodup_cons.mp hnd).1
        have hrest : ∀ x ∈ rest, x.1 ≠ name := by
          intro x hx hxe
          exact hnotin (by
            rw [hk, ← hxe]
            exact List.mem_map_of_mem Prod.fst hx)
        have hre : updateArg rest name f = rest := updateArg_of_not_mem rest name f hrest
        simp only [updateArg] at hre
        rw [hre]
        rw [allPositions_cons, allPositions_cons]
        show (↑((f e.2).positions ++ allPositions rest) : Multiset Nat) = _
        rw [hf e.2]
        rw [← Multiset.coe_add, ← Multiset.coe_add, ← Multiset.coe_add]
        exact add_right_comm _ _ _
      · rw [if_neg hk]
        rw [allPositions_cons, allPositions_cons]
        have hsome' : lookupArg rest name ≠ none := by
          intro hnone
          apply hsome
          rw [lookupArg_pair_cons e.1 e.2 rest name]
          · rw [if_neg hk]
            exact hnone
        have hadd := ih (List.nodup_cons.mp hnd).2 hsome'
        rw [← Multiset.coe_add, ← Multiset.coe_add]
        rw [hadd, ← add_assoc]

theorem map_proj_updateArg {α : Type} (l : List (String × NamedArg)) (name : String)
    (f : NamedArg → NamedArg) (proj : NamedArg → α) (hf : ∀ a, proj (f a) = proj a) :
    (updateArg l name f).map (fun e => proj e.2) = l.map (fun e => proj e.2) := by
  induction l with
  | nil => rfl
  | cons e rest ih =>
      simp only [updateArg, List.map_cons] at *
      by_cases hk : e.1 = name
      · rw [if_pos hk, ih]
        show proj (f e.2) :: _ = _
        rw [hf e.2]
      · rw [if_neg hk, ih]

theorem flatten_map_singleton (l : List Nat) :
    (l.map (fun i => ([i] : List Nat))).flatten = l := by
  induction l with
  | nil => rfl
  | cons a t ih => simp [ih]

theorem updateArg_length (l : List (String × NamedArg)) (name : String)
    (f : NamedArg → NamedArg) : (updateArg l name f).length = l.length := by
  simp [updateArg]

/-- The registry invariant the compiler maintains: the slot indices
referenced across all entries are exactly 0..argsCount-1 (as a multiset),
names are registered at most once, and under a numbered dialect the i-th
registered entry holds exactly position i and the tag prefix ++ (i+1). -/
structure BuildInv (u : Bool) (argTag : String) (st : BuildState) : Prop where
  posMS : (↑(allPositions st.args) : Multiset Nat) = ↑(List.range st.argsCount)
  keysNodup : (st.args.map Prod.fst).Nodup
  mapPos : u = true →
    st.args.map (fun e => e.2.positions) = (List.range st.args.length).map (fun i => [i])
  mapTag : u = true →
    st.args.map (fun e => e.2.tag)
      = (List.range st.args.length).map (fun i => argTag ++ toString (i + 1))

theorem buildInv_positional_count (argTag : String) (st : BuildState)
    (inv : BuildInv true argTag st) : st.argsCount = st.args.length := by
  have h1 : allPositions st.args = List.range st.args.length := by
    unfold allPositions
    rw [inv.mapPos rfl, flatten_map_singleton]
  have h2 := inv.posMS
  rw [h1, Multiset.coe_eq_coe] at h2
  have h3 := h2.length_eq
  simpa using h3.symm

theorem notin_keys_of_lookup_none (l : List (String × NamedArg)) (name : String)
    (h : lookupArg l name = none) : name ∉ l.map Prod.fst := by
  intro hmem
  obtain ⟨e, he, hfst⟩ := List.mem_map.mp hmem
  exact ((lookupArg_eq_none_iff l name).mp h) e he hfst

theorem buildInv_addNamedArgPositional (argTag : String) (st : BuildState) (name : String)
    (om : Bool) (inv : BuildInv true argTag st) :
    BuildInv true argTag (addNamedArgPositional argTag st name om).1 := by
  unfold addNamedArgPositional
  cases hl : lookupArg st.args name with
  | some arg =>
      dsimp only
      refine ⟨?_, ?_, ?_, ?_⟩
      · rw [allPositions_updateArg_presv _ _ _ (fun a => setOmissible_positions a om)]
        exact inv.posMS
      · rw [updateArg_map_fst]
        exact inv.keysNodup
      · intro _
        rw [map_proj_updateArg _ _ _ NamedArg.positions (fun a => setOmissible_positions a om)]
        rw [updateArg_length]
        exact inv.mapPos rfl
      · intro _
        rw [map_proj_updateArg _ _ _ NamedArg.tag (fun a => setOmissible_tag a om)]
        rw [updateArg_length]
        exact inv.mapTag rfl
  | none =>
      dsimp only
      have hcnt : st.argsCount = st.args.length := buildInv_positional_count argTag st inv
      refine ⟨?_, ?_, ?_, ?_⟩
      · rw [allPositions_append_singleton]
        show (↑(allPositions st.args ++ [st.argsCount]) : Multiset Nat) = _
        rw [List.range_succ]
        rw [← Multiset.coe_add, ← Multiset.coe_add, inv.posMS]
      · rw [List.map_append, List.nodup_append]
        refine ⟨inv.keysNodup, List.nodup_singleton name, ?_⟩
        intro a ha hb
        rw [List.mem_singleton.mp hb] at ha
        exact notin_keys_of_lookup_none _ _ hl ha
      · intro _
        rw [List.map_append, List.length_append]
        show _ ++ [[st.argsCount]] = _
        rw [List.length_singleton, List.range_succ, List.map_append, inv.mapPos rfl, hcnt]
        rfl
      · intro _
        rw [List.map_append, List.length_append]
        show _ ++ [argTag ++ toString (st.argsCount + 1)] = _
        rw [List.length_singleton, List.range_succ, List.map_append, inv.mapTag rfl, hcnt]
        rfl

theorem buildInv_addNamedArgNonPositional (argTag : String) (st : BuildState) (name : String)
    (om : Bool) (inv : BuildInv false argTag st) :
    BuildInv false argTag (addNamedArgNonPositional argTag st name om).1 := by
  unfold addNamedArgNonPositional
  cases hl : lookupArg st.args name with
  | some arg =>
      dsimp only
      refine ⟨?_, ?_, fun h => absurd h (by simp), fun h => absurd h (by simp)⟩
      · rw [allPositions_updateArg_add st.args name st.argsCount _
            (fun a => by
              show ((a.setOmissible om).positions ++ [st.argsCount]) = _
              rw [setOmissible_positions])
            inv.keysNodup (by rw [hl]; exact fun hc => Option.noConfusion hc)]
        rw [List.range_succ]
        rw [← Multiset.coe_add, inv.posMS]
      · rw [updateArg_map_fst]
        exact inv.keysNodup
  | none =>
      dsimp only
      refine ⟨?_, ?_, fun h => absurd h (by simp), fun h => absurd h (by simp)⟩
      · rw [allPositions_append_singleton]
        show (↑(allPositions st.args ++ [st.argsCount]) : Multiset Nat) = _
        rw [List.range_succ]
        rw [← Multiset.coe_add, ← Multiset.coe_add, inv.posMS]
      · rw [List.map_append, List.nodup_append]
        refine ⟨inv.keysNodup, List.nodup_singleton name, ?_⟩
        intro a ha hb
        rw [List.mem_singleton.mp hb] at ha
        exact notin_keys_of_lookup_none _ _ hl ha

theorem buildInv_addNamedArg (u : Bool) (argTag : String) (st : BuildState) (name : String)
    (om : Bool) (inv : BuildInv u argTag st) :
    BuildInv u argTag (addNamedArg u argTag st name om).1 := by
  cases u
  · unfold addNamedArg
    simp only [Bool.false_eq_true, if_false]
    exact buildInv_addNamedArgNonPositional argTag st name om inv
  · unfold addNamedArg
    simp only [if_true]
    exact buildInv_addNamedArgPositional argTag st name om inv

theorem scanLoop_inv (u : Bool) (argTag : String) :
    ∀ fuel text pos out st out' st',
      BuildInv u argTag st →
      scanLoop u argTag fuel text pos out st = .ok (out', st') →
      BuildInv u argTag st' := by
  intro fuel
  induction fuel with
  | zero => intro text pos out st out' st' _ h; simp [scanLoop] at h
  | succ fuel ih =>
      intro text pos out st out' st' hf h
      cases text with
      | nil =>
          simp only [scanLoop, Except.ok.injEq, Prod.mk.injEq] at h
          rw [← h.2]
          exact hf
      | cons c rest =>
          simp only [scanLoop] at h
          by_cases hc : c = ':'
          · rw [if_pos hc] at h
            by_cases hh : rest.head? = some ':'
            · rw [if_pos hh] at h
              exact ih _ _ _ _ _ _ hf h
            · rw [if_neg hh] at h
              by_cases hn : (rest.takeWhile isNameRune).length = 0
              · rw [if_pos hn] at h
                simp at h
              · rw [if_neg hn] at h
                by_cases hq : (rest.drop (rest.takeWhile isNameRune).length).head? = some '?'
                · rw [if_pos hq] at h
                  exact ih _ _ _ _ _ _ (buildInv_addNamedArg u argTag st _ true hf) h
                · rw [if_neg hq] at h
                  exact ih _ _ _ _ _ _ (buildInv_addNamedArg u argTag st _ false hf) h
          · rw [if_neg hc] at h
            exact ih _ _ _ _ _ _ hf h

theorem buildArgs_inv (n t : NamedTemplate) (h : n.buildArgs = .ok t) :
    BuildInv t.usePositionalTags t.argTag ⟨t.args, t.argsCount⟩ := by
  unfold NamedTemplate.buildArgs at h
  cases htok : replaceTokens n.tokenOptions n.originalStatement with
  | error e => rw [htok] at h; simp at h
  | ok text =>
      rw [htok] at h
      dsimp only at h
      cases hscan : scanLoop n.usePositionalTags n.argTag (text.length + 1) text.data 0 "" ⟨[], 0⟩ with
      | error e => rw [hscan] at h; simp at h
      | ok r =>
          rw [hscan] at h
          simp only [Except.ok.injEq] at h
          have hinv0 : BuildInv n.usePositionalTags n.argTag ⟨[], 0⟩ :=
            ⟨rfl, List.nodup_nil, fun _ => rfl, fun _ => rfl⟩
          have hinv : BuildInv n.usePositionalTags n.argTag r.2 :=
            scanLoop_inv n.usePositionalTags n.argTag _ _ _ _ _ _ _ hinv0 hscan
          rw [← h]
          exact hinv

/-- Claim C3: in every successfully compiled template the entries' position
lists are pairwise disjoint and duplicate-free, the referenced indices are
exactly 0..argsCount-1 (each index in exactly one entry), membership is
exactly boundedness by argsCount, argsCount is the sum of the position-list
lengths (the non-numbered characterisation; it holds for both dialects), and
under a numbered dialect argsCount equals the number of distinct names. -/
theorem claim_C3_positions_partition (n t : NamedTemplate) (h : n.buildArgs = .ok t) :
    ((↑(allPositions t.args) : Multiset Nat) = ↑(List.range t.argsCount)) ∧
    (∀ p, p ∈ allPositions t.args ↔ p < t.argsCount) ∧
    t.args.Pairwise (fun e1 e2 => e1.2.positions.Disjoint e2.2.positions) ∧
    (∀ e ∈ t.args, e.2.positions.Nodup) ∧
    t.argsCount = (t.args.map (fun e => e.2.positions.length)).sum ∧
    (t.usePositionalTags = true → t.argsCount = t.args.length) := by
  have inv := buildArgs_inv n t h
  have hperm : List.Perm (allPositions t.args) (List.range t.argsCount) :=
    Multiset.coe_eq_coe.mp inv.posMS
  have hnodup : (allPositions t.args).Nodup :=
    (hperm.nodup_iff).mpr (List.nodup_range t.argsCount)
  have hflat := List.nodup_flatten.mp hnodup
  refine ⟨inv.posMS, ?_, ?_, ?_, ?_, ?_⟩
  · intro p
    rw [hperm.mem_iff, List.mem_range]
  · exact List.pairwise_map.mp hflat.2
  · intro e he
    exact hflat.1 e.2.positions (List.mem_map_of_mem (fun e => e.2.positions) he)
  · have hlen := hperm.length_eq
    rw [List.length_range] at hlen
    rw [← hlen]
    unfold allPositions
    rw [List.length_flatten, List.map_map]
    rfl
  · intro hu
    rw [hu] at inv
    exact buildInv_positional_count t.argTag ⟨t.args, t.argsCount⟩ inv

/-- The compiled template for ":x :y :x" under the non-numbered "?"
dialect. -/
def tC3 : NamedTemplate :=
  { originalStatement := ":x :y :x", statement := "? ? ?",
    args := [("x", { tag := "?", positions := [0, 2], omissible := false,
                     defValue := none, nullableString := false }),
             ("y", { tag := "?", positions := [1], omissible := false,
                     defValue := none, nullableString := false })],
    argsCount := 3, usePositionalTags := false, argTag := "?", tokenOptions := [] }

/-- Witness for C3 at the concrete compile of ":x :y :x". -/
theorem claim_C3_witness :
    (newNamedTemplate ":x :y :x" false "?" []).buildArgs = .ok tC3 ∧
    (((↑(allPositions tC3.args) : Multiset Nat) = ↑(List.range tC3.argsCount)) ∧
     (∀ p, p ∈ allPositions tC3.args ↔ p < tC3.argsCount) ∧
     tC3.args.Pairwise (fun e1 e2 => e1.2.positions.Disjoint e2.2.positions) ∧
     (∀ e ∈ tC3.args, e.2.positions.Nodup) ∧
     tC3.argsCount = (tC3.args.map (fun e => e.2.positions.length)).sum ∧
     (tC3.usePositionalTags = true → tC3.argsCount = tC3.args.length)) :=
  ⟨rfl, claim_C3_positions_partition (newNamedTemplate ":x :y :x" false "?" []) tC3 rfl⟩

/-- Claim C2: under a numbered dialect the i-th registered entry carries the
tag prefix ++ (i+1) where i is the number of distinct names seen before it,
argsCount equals the number of distinct names, a repeated occurrence returns
the stored (first-occurrence) tag and allocates nothing (argsCount and all
position lists unchanged), and the scenario template renders
"INSERT INTO t (a,b,c) VALUES($1, $2, $1)" with argsCount 2. -/
theorem claim_C2_numbered_repeats (n t : NamedTemplate) (h : n.buildArgs = .ok t)
    (hpos : t.usePositionalTags = true) :
    (t.args.map (fun e => e.2.tag)
      = (List.range t.args.length).map (fun i => t.argTag ++ toString (i + 1))) ∧
    t.argsCount = t.args.length ∧
    (∀ st name om arg, lookupArg st.args name = some arg →
        (addNamedArgPositional t.argTag st name om).2 = arg.tag ∧
        (addNamedArgPositional t.argTag st name om).1.argsCount = st.argsCount ∧
        (∀ nm, (lookupArg (addNamedArgPositional t.argTag st name om).1.args nm).map
            NamedArg.positions = (lookupArg st.args nm).map NamedArg.positions)) ∧
    ((NewNamedTemplate "INSERT INTO t (a,b,c) VALUES(:x, :y, :x)" true "$" []).map
        (fun u => (u.statement, u.argsCount)))
      = .ok ("INSERT INTO t (a,b,c) VALUES($1, $2, $1)", 2) := by
  have inv := buildArgs_inv n t h
  rw [hpos] at inv
  refine ⟨inv.mapTag rfl, buildInv_positional_count t.argTag ⟨t.args, t.argsCount⟩ inv,
    ?_, rfl⟩
  intro st name om arg hlk
  unfold addNamedArgPositional
  rw [hlk]
  dsimp only
  refine ⟨rfl, rfl, ?_⟩
  intro nm
  by_cases hnm : name = nm
  · rw [← hnm]
    rw [lookupArg_updateArg_self]
    rw [hlk]
    show some (arg.setOmissible om).positions = some arg.positions
    rw [setOmissible_positions]
  · rw [lookupArg_updateArg_ne st.args name nm _ hnm]

/-- The compiled template for the numbered-dialect scenario. -/
def tC2 : NamedTemplate :=
  { originalStatement := "INSERT INTO t (a,b,c) VALUES(:x, :y, :x)",
    statement := "INSERT INTO t (a,b,c) VALUES($1, $2, $1)",
    args := [("x", { tag := "$1", positions := [0], omissible := false,
                     defValue := none, nullableString := false }),
             ("y", { tag := "$2", positions := [1], omissible := false,
                     defValue := none, nullableString := false })],
    argsCount := 2, usePositionalTags := true, argTag := "$", tokenOptions := [] }

/-- Witness for C2 at the scenario template and the repeated name "x". -/
theorem claim_C2_witness :
    ((newNamedTemplate "INSERT INTO t (a,b,c) VALUES(:x, :y, :x)" true "$" []).buildArgs
        = .ok tC2 ∧ tC2.usePositionalTags = true) ∧
    tC2.args.map (fun e => e.2.tag)
      = (List.range tC2.args.length).map (fun i => tC2.argTag ++ toString (i + 1)) ∧
    tC2.argsCount = tC2.args.length ∧
    (addNamedArgPositional tC2.argTag ⟨tC2.args, tC2.argsCount⟩ "x" false).2 = "$1" ∧
    (addNamedArgPositional tC2.argTag ⟨tC2.args, tC2.argsCount⟩ "x" false).1.argsCount
      = tC2.argsCount := by
  have hc := claim_C2_numbered_repeats
    (newNamedTemplate "INSERT INTO t (a,b,c) VALUES(:x, :y, :x)" true "$" []) tC2 rfl rfl
  have hrep := hc.2.2.1 ⟨tC2.args, tC2.argsCount⟩ "x" false
    { tag := "$1", positions := [0], omissible := false, defValue := none,
      nullableString := false } rfl
  exact ⟨⟨rfl, rfl⟩, hc.1, hc.2.1, hrep.1.trans rfl, hrep.2.1⟩

/-! ### The binder: per-entry case split -/

/-- The value the spec's per-entry case split assigns to an entry's
positions: the supplied value through the nullable-string rule, else the
defaulted value through the rule, else the absent value. -/
def entryValue (mapped : String → Option GoVal) (e : String × NamedArg) : GoVal :=
  match mapped e.1 with
  | some v => (e.2.value v).getD GoVal.nil
  | none =>
      match e.2.defValue with
      | some f => (e.2.value (f e.1)).getD GoVal.nil
      | none => GoVal.nil

/-- Processing the entry avoids the nil-pointer dereference of C9. -/
def entryNoPanic (mapped : String → Option GoVal) (e : String × NamedArg) : Bool :=
  match mapped e.1 with
  | some v => (e.2.value v).isSome
  | none =>
      match e.2.defValue with
      | some f => if e.2.omissible then (e.2.value (f e.1)).isSome else true
      | none => true

theorem writeAll_length (out : List GoVal) (posns : List Nat) (v : GoVal) :
    (writeAll out posns v).length = out.length := by
  induction posns generalizing out with
  | nil => rfl
  | cons q ps ih =>
      show (writeAll (out.set q v) ps v).length = _
      rw [ih, List.length_set]

theorem writeAll_getElem_not_mem (out : List GoVal) (posns : List Nat) (v : GoVal) (p : Nat)
    (hp : p ∉ posns) : (writeAll out posns v)[p]? = out[p]? := by
  induction posns generalizing out with
  | nil => rfl
  | cons q ps ih =>
      show (writeAll (out.set q v) ps v)[p]? = _
      rw [ih _ (fun h => hp (List.mem_cons_of_mem q h))]
      exact List.getElem?_set_ne
        (fun h => hp (by rw [← h]; exact List.mem_cons_self q ps))

theorem writeAll_getElem_mem (out : List GoVal) (posns : List Nat) (v : GoVal) (p : Nat)
    (hp : p ∈ posns) (hlt : p < out.length) : (writeAll out posns v)[p]? = some v := by
  induction posns generalizing out with
  | nil => exact absurd hp (List.not_mem_nil p)
  | cons q ps ih =>
      show (writeAll (out.set q v) ps v)[p]? = _
      by_cases hps : p ∈ ps
      · exact ih _ hps (by rw [List.length_set]; exact hlt)
      · have hpq : p = q := by
          rcases List.mem_cons.mp hp with h | h
          · exact h
          · exact absurd h hps
        rw [writeAll_getElem_not_mem _ _ _ _ hps, hpq]
        exact List.getElem?_set_self (by rw [← hpq]; exact hlt)


theorem argsLoop_cons_found (mapped : String → Option GoVal) (name : String) (arg : NamedArg)
    (rest : List (String × NamedArg)) (out : List GoVal) (v av : GoVal)
    (hm : mapped name = some v) (hav : arg.value v = some av) :
    argsLoop mapped ((name, arg) :: rest) out
      = argsLoop mapped rest (writeAll out arg.positions av) := by
  simp only [argsLoop]
  rw [hm]
  dsimp only
  rw [hav]

theorem argsLoop_cons_panic (mapped : String → Option GoVal) (name : String) (arg : NamedArg)
    (rest : List (String × NamedArg)) (out : List GoVal) (v : GoVal)
    (hm : mapped name = some v) (hav : arg.value v = none) :
    argsLoop mapped ((name, arg) :: rest) out = .panicNilDeref := by
  simp only [argsLoop]
  rw [hm]
  dsimp only
  rw [hav]

theorem argsLoop_cons_missing_required (mapped : String → Option GoVal) (name : String)
    (arg : NamedArg) (rest : List (String × NamedArg)) (out : List GoVal)
    (hm : mapped name = none) (hom : arg.omissible = false) :
    argsLoop mapped ((name, arg) :: rest) out
      = .err ("named arg '" ++ name ++ "' missing") := by
  simp only [argsLoop]
  rw [hm]
  dsimp only
  rw [hom]
  rfl

theorem argsLoop_cons_default (mapped : String → Option GoVal) (name : String) (arg : NamedArg)
    (rest : List (String × NamedArg)) (out : List GoVal) (f : DefaultValueFunc) (dv : GoVal)
    (hm : mapped name = none) (hom : arg.omissible = true) (hd : arg.defValue = some f)
    (hdv : arg.value (f name) = some dv) :
    argsLoop mapped ((name, arg) :: rest) out
      = argsLoop mapped rest (writeAll out arg.positions dv) := by
  simp only [argsLoop]
  rw [hm]
  dsimp only
  rw [hom]
  rw [if_neg (by simp)]
  rw [hd]
  dsimp only
  rw [hdv]

theorem argsLoop_cons_default_panic (mapped : String → Option GoVal) (name : String)
    (arg : NamedArg) (rest : List (String × NamedArg)) (out : List GoVal)
    (f : DefaultValueFunc) (hm : mapped name = none) (hom : arg.omissible = true)
    (hd : arg.defValue = some f) (hdv : arg.value (f name) = none) :
    argsLoop mapped ((name, arg) :: rest) out = .panicNilDeref := by
  simp only [argsLoop]
  rw [hm]
  dsimp only
  rw [hom]
  rw [if_neg (by simp)]
  rw [hd]
  dsimp only
  rw [hdv]

theorem argsLoop_cons_skip (mapped : String → Option GoVal) (name : String) (arg : NamedArg)
    (rest : List (String × NamedArg)) (out : List GoVal)
    (hm : mapped name = none) (hom : arg.omissible = true) (hd : arg.defValue = none) :
    argsLoop mapped ((name, arg) :: rest) out = argsLoop mapped rest out := by
  simp only [argsLoop]
  rw [hm]
  dsimp only
  rw [hom]
  rw [if_neg (by simp)]
  rw [hd]

theorem entryValue_found (mapped : String → Option GoVal) (name : String) (arg : NamedArg)
    (v av : GoVal) (hm : mapped name = some v) (hav : arg.value v = some av) :
    entryValue mapped (name, arg) = av := by
  unfold entryValue
  rw [hm]
  dsimp only
  rw [hav]
  rfl

theorem entryValue_default (mapped : String → Option GoVal) (name : String) (arg : NamedArg)
    (f : DefaultValueFunc) (dv : GoVal) (hm : mapped name = none) (hd : arg.defValue = some f)
    (hdv : arg.value (f name) = some dv) : entryValue mapped (name, arg) = dv := by
  unfold entryValue
  rw [hm]
  dsimp only
  rw [hd]
  dsimp only
  rw [hdv]
  rfl

theorem entryValue_skip (mapped : String → Option GoVal) (name : String) (arg : NamedArg)
    (hm : mapped name = none) (hd : arg.defValue = none) :
    entryValue mapped (name, arg) = GoVal.nil := by
  unfold entryValue
  rw [hm]
  dsimp only
  rw [hd]

theorem argsLoop_ok_writes (mapped : String → Option GoVal) :
    ∀ (l : List (String × NamedArg)) (out : List GoVal),
      (∀ e ∈ l, entryNoPanic mapped e = true) →
      (∀ e ∈ l, (mapped e.1).isSome = true ∨ e.2.omissible = true) →
      l.Pairwise (fun e1 e2 => ∀ p ∈ e1.2.positions, p ∉ e2.2.positions) →
      (∀ e ∈ l, mapped e.1 = none → e.2.defValue = none →
        ∀ p ∈ e.2.positions, out[p]? = some GoVal.nil) →
      ∃ res, argsLoop mapped l out = .ok res ∧ res.length = out.length ∧
        (∀ e ∈ l, ∀ p ∈ e.2.positions, p < out.length →
          res[p]? = some (entryValue mapped e)) ∧
        (∀ p, (∀ e ∈ l, p ∉ e.2.positions) → res[p]? = out[p]?) := by
  intro l
  induction l with
  | nil =>
      intro out _ _ _ _
      exact ⟨out, rfl, rfl, fun e he => absurd he (List.not_mem_nil e), fun p _ => rfl⟩
  | cons e rest ih =>
      intro out hnp hall hdisj hnil
      obtain ⟨name, arg⟩ := e
      have hnph := hnp _ (List.mem_cons_self _ _)
      have hdh := List.pairwise_cons.mp hdisj
      have hnp' : ∀ e ∈ rest, entryNoPanic mapped e = true :=
        fun e he => hnp e (List.mem_cons_of_mem _ he)
      have hall' : ∀ e ∈ rest, (mapped e.1).isSome = true ∨ e.2.omissible = true :=
        fun e he => hall e (List.mem_cons_of_mem _ he)
      cases hm : mapped name with
      | some v =>
          have hsome : (arg.value v).isSome = true := by
            unfold entryNoPanic at hnph
            rw [hm] at hnph
            exact hnph
          obtain ⟨av, hav⟩ := Option.isSome_iff_exists.mp hsome
          have hstep := argsLoop_cons_found mapped name arg rest out v av hm hav
          have hev := entryValue_found mapped name arg v av hm hav
          have hnil' : ∀ e ∈ rest, mapped e.1 = none → e.2.defValue = none →
              ∀ p ∈ e.2.positions, (writeAll out arg.positions av)[p]? = some GoVal.nil := by
            intro e' he' hm' hd' p hp
            have hpnot : p ∉ arg.positions := fun hpin => (hdh.1 e' he' p hpin) hp
            rw [writeAll_getElem_not_mem _ _ _ _ hpnot]
            exact hnil e' (List.mem_cons_of_mem _ he') hm' hd' p hp
          obtain ⟨res, hres, hlen, hentries, huntouched⟩ :=
            ih (writeAll out arg.positions av) hnp' hall' hdh.2 hnil'
          refine ⟨res, hstep.trans hres, hlen.trans (writeAll_length _ _ _), ?_, ?_⟩
          · intro e' he' p hp hplt
            rcases List.mem_cons.mp he' with he0 | he'' 
            · rw [he0] at hp ⊢
              have hnotrest : ∀ e'' ∈ rest, p ∉ e''.2.positions :=
                fun e'' he'' => hdh.1 e'' he'' p hp
              rw [huntouched p hnotrest]
              rw [writeAll_getElem_mem out arg.positions av p hp hplt, hev]
            · exact hentries e' he'' p hp (by rw [writeAll_length]; exact hplt)
          · intro p hpnone
            rw [huntouched p (fun e'' he'' => hpnone e'' (List.mem_cons_of_mem _ he''))]
            exact writeAll_getElem_not_mem _ _ _ _ (hpnone _ (List.mem_cons_self _ _))
      | none =>
          have hom : arg.omissible = true := by
            rcases hall _ (List.mem_cons_self _ _) with h | h
            · rw [hm] at h
              simp at h
            · exact h
          cases hd : arg.defValue with
          | some f =>
              have hsome : (arg.value (f name)).isSome = true := by
                unfold entryNoPanic at hnph
                rw [hm, hd, hom] at hnph
                simpa using hnph
              obtain ⟨dv, hdv⟩ := Option.isSome_iff_exists.mp hsome
              have hstep := argsLoop_cons_default mapped name arg rest out f dv hm hom hd hdv
              have hev := entryValue_default mapped name arg f dv hm hd hdv
              have hnil' : ∀ e ∈ rest, mapped e.1 = none → e.2.defValue = none →
                  ∀ p ∈ e.2.positions, (writeAll out arg.positions dv)[p]? = some GoVal.nil := by
                intro e' he' hm' hd' p hp
                have hpnot : p ∉ arg.positions := fun hpin => (hdh.1 e' he' p hpin) hp
                rw [writeAll_getElem_not_mem _ _ _ _ hpnot]
                exact hnil e' (List.mem_cons_of_mem _ he') hm' hd' p hp
              obtain ⟨res, hres, hlen, hentries, huntouched⟩ :=
                ih (writeAll out arg.positions dv) hnp' hall' hdh.2 hnil'
              refine ⟨res, hstep.trans hres, hlen.trans (writeAll_length _ _ _), ?_, ?_⟩
              · intro e' he' p hp hplt
                rcases List.mem_cons.mp he' with he0 | he''
                · rw [he0] at hp ⊢
                  have hnotrest : ∀ e'' ∈ rest, p ∉ e''.2.positions :=
                    fun e'' he'' => hdh.1 e'' he'' p hp
                  rw [huntouched p hnotrest]
                  rw [writeAll_getElem_mem out arg.positions dv p hp hplt, hev]
                · exact hentries e' he'' p hp (by rw [writeAll_length]; exact hplt)
              · intro p hpnone
                rw [huntouched p (fun e'' he'' => hpnone e'' (List.mem_cons_of_mem _ he''))]
                exact writeAll_getElem_not_mem _ _ _ _ (hpnone _ (List.mem_cons_self _ _))
          | none =>
              have hstep := argsLoop_cons_skip mapped name arg rest out hm hom hd
              have hev := entryValue_skip mapped name arg hm hd
              have hnil' : ∀ e ∈ rest, mapped e.1 = none → e.2.defValue = none →
                  ∀ p ∈ e.2.positions, out[p]? = some GoVal.nil :=
                fun e' he' => hnil e' (List.mem_cons_of_mem _ he')
              obtain ⟨res, hres, hlen, hentries, huntouched⟩ :=
                ih out hnp' hall' hdh.2 hnil'
              refine ⟨res, hstep.trans hres, hlen, ?_, ?_⟩
              · intro e' he' p hp hplt
                rcases List.mem_cons.mp he' with he0 | he''
                · rw [he0] at hp ⊢
                  have hnotrest : ∀ e'' ∈ rest, p ∉ e''.2.positions :=
                    fun e'' he'' => hdh.1 e'' he'' p hp
                  rw [huntouched p hnotrest, hev]
                  exact hnil _ (List.mem_cons_self _ _) hm hd p hp
                · exact hentries e' he'' p hp hplt
              · intro p hpnone
                exact huntouched p (fun e'' he'' => hpnone e'' (List.mem_cons_of_mem _ he''))

theorem argsLoop_err_missing (mapped : String → Option GoVal) :
    ∀ (l : List (String × NamedArg)) (out : List GoVal),
      (∀ e ∈ l, entryNoPanic mapped e = true) →
      (∃ e ∈ l, mapped e.1 = none ∧ e.2.omissible = false) →
      ∃ e ∈ l, mapped e.1 = none ∧ e.2.omissible = false ∧
        argsLoop mapped l out = .err ("named arg '" ++ e.1 ++ "' missing") := by
  intro l
  induction l with
  | nil =>
      intro out _ hex
      obtain ⟨e, he, _⟩ := hex
      exact absurd he (List.not_mem_nil e)
  | cons e rest ih =>
      intro out hnp hex
      obtain ⟨name, arg⟩ := e
      have hnph := hnp _ (List.mem_cons_self _ _)
      have hnp' : ∀ e ∈ rest, entryNoPanic mapped e = true :=
        fun e he => hnp e (List.mem_cons_of_mem _ he)
      cases hm : mapped name with
      | some v =>
          have hsome : (arg.value v).isSome = true := by
            unfold entryNoPanic at hnph
            rw [hm] at hnph
            exact hnph
          obtain ⟨av, hav⟩ := Option.isSome_iff_exists.mp hsome
          have hstep := argsLoop_cons_found mapped name arg rest out v av hm hav
          have hex' : ∃ e ∈ rest, mapped e.1 = none ∧ e.2.omissible = false := by
            obtain ⟨e0, he0, hm0, ho0⟩ := hex
            rcases List.mem_cons.mp he0 with h0 | h0
            · rw [h0] at hm0
              dsimp only at hm0
              rw [hm] at hm0
              cases hm0
            · exact ⟨e0, h0, hm0, ho0⟩
          obtain ⟨e', he', hm', ho', herr⟩ :=
            ih (writeAll out arg.positions av) hnp' hex'
          exact ⟨e', List.mem_cons_of_mem _ he', hm', ho', hstep.trans herr⟩
      | none =>
          cases hob : arg.omissible with
          | false =>
              exact ⟨(name, arg), List.mem_cons_self _ _, hm, hob,
                argsLoop_cons_missing_required mapped name arg rest out hm hob⟩
          | true =>
              have hex' : ∃ e ∈ rest, mapped e.1 = none ∧ e.2.omissible = false := by
                obtain ⟨e0, he0, hm0, ho0⟩ := hex
                rcases List.mem_cons.mp he0 with h0 | h0
                · rw [h0] at ho0
                  dsimp only at ho0
                  rw [hob] at ho0
                  cases ho0
                · exact ⟨e0, h0, hm0, ho0⟩
              cases hd : arg.defValue with
              | some f =>
                  have hsome : (arg.value (f name)).isSome = true := by
                    unfold entryNoPanic at hnph
                    rw [hm, hd, hob] at hnph
                    simpa using hnph
                  obtain ⟨dv, hdv⟩ := Option.isSome_iff_exists.mp hsome
                  have hstep := argsLoop_cons_default mapped name arg rest out f dv hm hob hd hdv
                  obtain ⟨e', he', hm', ho', herr⟩ :=
                    ih (writeAll out arg.positions dv) hnp' hex'
                  exact ⟨e', List.mem_cons_of_mem _ he', hm', ho', hstep.trans herr⟩
              | none =>
                  have hstep := argsLoop_cons_skip mapped name arg rest out hm hob hd
                  obtain ⟨e', he', hm', ho', herr⟩ := ih out hnp' hex'
                  exact ⟨e', List.mem_cons_of_mem _ he', hm', ho', hstep.trans herr⟩

/-- Claim C1: under the compiled-template invariants (disjoint in-bounds
positions) and for inputs avoiding the C9 nil-pointer panic, Args follows
the per-entry case split exactly: when every entry is supplied or
omissible it succeeds, writing each entry's resolved value (supplied or
defaulted, through the nullable-string rule) to every owned position and
leaving unowned and untouched slots at the absent nil value; otherwise it
fails with an error naming a missing non-omissible argument. -/
theorem claim_C1_args_case_split (n : NamedTemplate) (mapped : String → Option GoVal)
    (hnp : ∀ e ∈ n.args, entryNoPanic mapped e = true)
    (hdisj : n.args.Pairwise (fun e1 e2 => ∀ p ∈ e1.2.positions, p ∉ e2.2.positions))
    (hbound : ∀ e ∈ n.args, ∀ p ∈ e.2.positions, p < n.argsCount) :
    ((∀ e ∈ n.args, (mapped e.1).isSome = true ∨ e.2.omissible = true) →
      ∃ res, n.Args mapped = .ok res ∧ res.length = n.argsCount ∧
        (∀ e ∈ n.args, ∀ p ∈ e.2.positions, res[p]? = some (entryValue mapped e)) ∧
        (∀ p, p < n.argsCount → (∀ e ∈ n.args, p ∉ e.2.positions) →
          res[p]? = some GoVal.nil)) ∧
    ((∃ e ∈ n.args, mapped e.1 = none ∧ e.2.omissible = false) →
      ∃ e ∈ n.args, mapped e.1 = none ∧ e.2.omissible = false ∧
        n.Args mapped = .err ("named arg '" ++ e.1 ++ "' missing")) := by
  constructor
  · intro hall
    have hrep : ∀ p, p < n.argsCount →
        (List.replicate n.argsCount GoVal.nil)[p]? = some GoVal.nil := by
      intro p hp
      rw [List.getElem?_replicate, if_pos hp]
    obtain ⟨res, hres, hlen, hent, hunt⟩ := argsLoop_ok_writes mapped n.args
      (List.replicate n.argsCount GoVal.nil) hnp hall hdisj
      (fun e he _ _ p hp => hrep p (hbound e he p hp))
    refine ⟨res, hres, by rw [hlen, List.length_replicate], ?_, ?_⟩
    · intro e he p hp
      exact hent e he p hp (by rw [List.length_replicate]; exact hbound e he p hp)
    · intro p hplt hpnone
      rw [hunt p hpnone]
      exact hrep p hplt
  · exact argsLoop_err_missing mapped n.args _ hnp

/-- The merged mapping for the C1 witness: x is supplied, y is supplied,
everything else is absent. -/
def mpC1 : String → Option GoVal :=
  fun s => if s = "x" then some (.str "X") else if s = "y" then some (.str "Y") else none

/-- Witness for C1 at the compiled ":x :y :x" template with both names
supplied. -/
theorem claim_C1_witness :
    ((∀ e ∈ tC3.args, entryNoPanic mpC1 e = true) ∧
     tC3.args.Pairwise (fun e1 e2 => ∀ p ∈ e1.2.positions, p ∉ e2.2.positions) ∧
     (∀ e ∈ tC3.args, ∀ p ∈ e.2.positions, p < tC3.argsCount) ∧
     (∀ e ∈ tC3.args, (mpC1 e.1).isSome = true ∨ e.2.omissible = true)) ∧
    (∃ res, tC3.Args mpC1 = .ok res ∧ res.length = tC3.argsCount ∧
      (∀ e ∈ tC3.args, ∀ p ∈ e.2.positions, res[p]? = some (entryValue mpC1 e)) ∧
      (∀ p, p < tC3.argsCount → (∀ e ∈ tC3.args, p ∉ e.2.positions) →
        res[p]? = some GoVal.nil)) :=
  ⟨⟨by decide, by decide, by decide, by decide⟩,
   (claim_C1_args_case_split tC3 mpC1 (by decide) (by decide) (by decide)).1 (by decide)⟩

/-! ### Order-(in)dependence of Args (C8) -/

theorem argsLoop_ok_inv (mapped : String → Option GoVal) :
    ∀ (l : List (String × NamedArg)) (out : List GoVal) (res : List GoVal),
      argsLoop mapped l out = .ok res →
      (∀ e ∈ l, entryNoPanic mapped e = true) ∧
      (∀ e ∈ l, (mapped e.1).isSome = true ∨ e.2.omissible = true) := by
  intro l
  induction l with
  | nil =>
      intro out res _
      exact ⟨fun e he => absurd he (List.not_mem_nil e),
             fun e he => absurd he (List.not_mem_nil e)⟩
  | cons e rest ih =>
      intro out res h
      obtain ⟨name, arg⟩ := e
      cases hm : mapped name with
      | some v =>
          cases hav : arg.value v with
          | none =>
              rw [argsLoop_cons_panic mapped name arg rest out v hm hav] at h
              cases h
          | some av =>
              rw [argsLoop_cons_found mapped name arg rest out v av hm hav] at h
              obtain ⟨hnp', hall'⟩ := ih _ _ h
              refine ⟨?_, ?_⟩
              · intro e' he'
                rcases List.mem_cons.mp he' with he0 | he0
                · rw [he0]
                  unfold entryNoPanic
                  rw [hm]
                  dsimp only
                  rw [hav]
                  rfl
                · exact hnp' e' he0
              · intro e' he'
                rcases List.mem_cons.mp he' with he0 | he0
                · rw [he0]
                  left
                  dsimp only
                  rw [hm]
                  rfl
                · exact hall' e' he0
      | none =>
          cases hob : arg.omissible with
          | false =>
              rw [argsLoop_cons_missing_required mapped name arg rest out hm hob] at h
              cases h
          | true =>
              cases hd : arg.defValue with
              | some f =>
                  cases hdv : arg.value (f name) with
                  | none =>
                      rw [argsLoop_cons_default_panic mapped name arg rest out f hm hob hd hdv]
                        at h
                      cases h
                  | some dv =>
                      rw [argsLoop_cons_default mapped name arg rest out f dv hm hob hd hdv] at h
                      obtain ⟨hnp', hall'⟩ := ih _ _ h
                      refine ⟨?_, ?_⟩
                      · intro e' he'
                        rcases List.mem_cons.mp he' with he0 | he0
                        · rw [he0]
                          unfold entryNoPanic
                          rw [hm]
                          dsimp only
                          rw [hd, hob]
                          dsimp only
                          rw [hdv]
                          rfl
                        · exact hnp' e' he0
                      · intro e' he'
                        rcases List.mem_cons.mp he' with he0 | he0
                        · rw [he0]
                          right
                          exact hob
                        · exact hall' e' he0
              | none =>
                  rw [argsLoop_cons_skip mapped name arg rest out hm hob hd] at h
                  obtain ⟨hnp', hall'⟩ := ih _ _ h
                  refine ⟨?_, ?_⟩
                  · intro e' he'
                    rcases List.mem_cons.mp he' with he0 | he0
                    · rw [he0]
                      unfold entryNoPanic
                      rw [hm]
                      dsimp only
                      rw [hd]
                    · exact hnp' e' he0
                  · intro e' he'
                    rcases List.mem_cons.mp he' with he0 | he0
                    · rw [he0]
                      right
                      exact hob
                    · exact hall' e' he0

theorem argsLoop_err_inv (mapped : String → Option GoVal) :
    ∀ (l : List (String × NamedArg)) (out : List GoVal) (msg : String),
      argsLoop mapped l out = .err msg →
      ∃ e ∈ l, mapped e.1 = none ∧ e.2.omissible = false ∧
        msg = "named arg '" ++ e.1 ++ "' missing" := by
  intro l
  induction l with
  | nil =>
      intro out msg h
      cases h
  | cons e rest ih =>
      intro out msg h
      obtain ⟨name, arg⟩ := e
      cases hm : mapped name with
      | some v =>
          cases hav : arg.value v with
          | none =>
              rw [argsLoop_cons_panic mapped name arg rest out v hm hav] at h
              cases h
          | some av =>
              rw [argsLoop_cons_found mapped name arg rest out v av hm hav] at h
              obtain ⟨e', he', hm', ho', hmsg⟩ := ih _ _ h
              exact ⟨e', List.mem_cons_of_mem _ he', hm', ho', hmsg⟩
      | none =>
          cases hob : arg.omissible with
          | false =>
              rw [argsLoop_cons_missing_required mapped name arg rest out hm hob] at h
              cases h
              exact ⟨(name, arg), List.mem_cons_self _ _, hm, hob, rfl⟩
          | true =>
              cases hd : arg.defValue with
              | some f =>
                  cases hdv : arg.value (f name) with
                  | none =>
                      rw [argsLoop_cons_default_panic mapped name arg rest out f hm hob hd hdv]
                        at h
                      cases h
                  | some dv =>
                      rw [argsLoop_cons_default mapped name arg rest out f dv hm hob hd hdv] at h
                      obtain ⟨e', he', hm', ho', hmsg⟩ := ih _ _ h
                      exact ⟨e', List.mem_cons_of_mem _ he', hm', ho', hmsg⟩
              | none =>
                  rw [argsLoop_cons_skip mapped name arg rest out hm hob hd] at h
                  obtain ⟨e', he', hm', ho', hmsg⟩ := ih _ _ h
                  exact ⟨e', List.mem_cons_of_mem _ he', hm', ho', hmsg⟩

theorem posDisjoint_symm {x y : String × NamedArg}
    (hxy : ∀ p ∈ x.2.positions, p ∉ y.2.positions) :
    ∀ p ∈ y.2.positions, p ∉ x.2.positions :=
  fun p hp hpx => hxy p hpx hp

/-- Claim C8 (corrected): for a fixed merged mapping and any two
iteration orders (permutations) of a registry with the compiled-template
invariants, success is order-independent and successful outputs are
identical; a failing call always reports some absent required name, but
which one may depend on the iteration order when several are absent
(see the counterexample). -/
theorem claim_C8_order_independence (n m : NamedTemplate) (mapped : String → Option GoVal)
    (hperm : n.args.Perm m.args) (hcnt : n.argsCount = m.argsCount)
    (hdisj : n.args.Pairwise (fun e1 e2 => ∀ p ∈ e1.2.positions, p ∉ e2.2.positions))
    (hbound : ∀ e ∈ n.args, ∀ p ∈ e.2.positions, p < n.argsCount) :
    (∀ res res', n.Args mapped = .ok res → m.Args mapped = .ok res' → res = res') ∧
    ((∃ res, n.Args mapped = .ok res) ↔ (∃ res, m.Args mapped = .ok res)) ∧
    (∀ msg, n.Args mapped = .err msg →
      ∃ e ∈ n.args, mapped e.1 = none ∧ e.2.omissible = false ∧
        msg = "named arg '" ++ e.1 ++ "' missing") := by
  have hdisjm : m.args.Pairwise (fun e1 e2 => ∀ p ∈ e1.2.positions, p ∉ e2.2.positions) :=
    (hperm.pairwise_iff posDisjoint_symm).mp hdisj
  have hboundm : ∀ e ∈ m.args, ∀ p ∈ e.2.positions, p < m.argsCount := by
    intro e he
    rw [← hcnt]
    exact hbound e (hperm.mem_iff.mpr he)
  have hrepn : ∀ p, p < n.argsCount →
      (List.replicate n.argsCount GoVal.nil)[p]? = some GoVal.nil := by
    intro p hp
    rw [List.getElem?_replicate, if_pos hp]
  have hrepm : ∀ p, p < m.argsCount →
      (List.replicate m.argsCount GoVal.nil)[p]? = some GoVal.nil := by
    intro p hp
    rw [List.getElem?_replicate, if_pos hp]
  refine ⟨?_, ?_, ?_⟩
  · intro res res' hok hok'
    obtain ⟨hnp, hall⟩ := argsLoop_ok_inv mapped n.args _ res hok
    have hnpm : ∀ e ∈ m.args, entryNoPanic mapped e = true :=
      fun e he => hnp e (hperm.mem_iff.mpr he)
    have hallm : ∀ e ∈ m.args, (mapped e.1).isSome = true ∨ e.2.omissible = true :=
      fun e he => hall e (hperm.mem_iff.mpr he)
    obtain ⟨res₀, hres₀, hlen₀, hent₀, hunt₀⟩ := argsLoop_ok_writes mapped n.args
      (List.replicate n.argsCount GoVal.nil) hnp hall hdisj
      (fun e he _ _ p hp => hrepn p (hbound e he p hp))
    obtain ⟨res₁, hres₁, hlen₁, hent₁, hunt₁⟩ := argsLoop_ok_writes mapped m.args
      (List.replicate m.argsCount GoVal.nil) hnpm hallm hdisjm
      (fun e he _ _ p hp => hrepm p (hboundm e he p hp))
    have he0 : res = res₀ := by
      have h := (hok.symm.trans hres₀)
      exact (ArgsResult.ok.injEq _ _).mp h
    have he1 : res' = res₁ := by
      have h := (hok'.symm.trans hres₁)
      exact (ArgsResult.ok.injEq _ _).mp h
    rw [he0, he1]
    apply List.ext_getElem?
    intro p
    by_cases hp : p < n.argsCount
    · by_cases hex : ∃ e ∈ n.args, p ∈ e.2.positions
      · obtain ⟨e, he, hpe⟩ := hex
        rw [hent₀ e he p hpe (by rw [List.length_replicate]; exact hp)]
        rw [hent₁ e (hperm.mem_iff.mp he) p hpe
          (by rw [List.length_replicate, ← hcnt]; exact hp)]
      · push_neg at hex
        rw [hunt₀ p hex, hunt₁ p (fun e he => hex e (hperm.mem_iff.mpr he))]
        rw [List.getElem?_replicate, List.getElem?_replicate, hcnt]
    · rw [List.getElem?_eq_none (by rw [hlen₀, List.length_replicate]; omega)]
      rw [List.getElem?_eq_none (by rw [hlen₁, List.length_replicate]; omega)]
  · constructor
    · intro hok
      obtain ⟨res, hres⟩ := hok
      obtain ⟨hnp, hall⟩ := argsLoop_ok_inv mapped n.args _ res hres
      have hnpm : ∀ e ∈ m.args, entryNoPanic mapped e = true :=
        fun e he => hnp e (hperm.mem_iff.mpr he)
      have hallm : ∀ e ∈ m.args, (mapped e.1).isSome = true ∨ e.2.omissible = true :=
        fun e he => hall e (hperm.mem_iff.mpr he)
      obtain ⟨res₁, hres₁, _, _, _⟩ := argsLoop_ok_writes mapped m.args
        (List.replicate m.argsCount GoVal.nil) hnpm hallm hdisjm
        (fun e he _ _ p hp => hrepm p (hboundm e he p hp))
      exact ⟨res₁, hres₁⟩
    · intro hok
      obtain ⟨res, hres⟩ := hok
      obtain ⟨hnpm, hallm⟩ := argsLoop_ok_inv mapped m.args _ res hres
      have hnp : ∀ e ∈ n.args, entryNoPanic mapped e = true :=
        fun e he => hnpm e (hperm.mem_iff.mp he)
      have hall : ∀ e ∈ n.args, (mapped e.1).isSome = true ∨ e.2.omissible = true :=
        fun e he => hallm e (hperm.mem_iff.mp he)
      obtain ⟨res₀, hres₀, _, _, _⟩ := argsLoop_ok_writes mapped n.args
        (List.replicate n.argsCount GoVal.nil) hnp hall hdisj
        (fun e he _ _ p hp => hrepn p (hbound e he p hp))
      exact ⟨res₀, hres₀⟩
  · intro msg h
    exact argsLoop_err_inv mapped n.args _ msg h

/-- The compiled template for ":a :b" with both names required. -/
def tC8a : NamedTemplate :=
  { originalStatement := ":a :b", statement := "? ?",
    args := [("a", { tag := "?", positions := [0], omissible := false,
                     defValue := none, nullableString := false }),
             ("b", { tag := "?", positions := [1], omissible := false,
                     defValue := none, nullableString := false })],
    argsCount := 2, usePositionalTags := false, argTag := "?", tokenOptions := [] }

/-- The same registry presented in the reversed iteration order, as Go's
randomized map iteration may. -/
def tC8b : NamedTemplate :=
  { originalStatement := ":a :b", statement := "? ?",
    args := [("b", { tag := "?", positions := [1], omissible := false,
                     defValue := none, nullableString := false }),
             ("a", { tag := "?", positions := [0], omissible := false,
                     defValue := none, nullableString := false })],
    argsCount := 2, usePositionalTags := false, argTag := "?", tokenOptions := [] }

/-- Counterexample for C8 as stated: with both required names absent, the
two iteration orders of the same registry report different missing
arguments, so the error is not independent of the registry's iteration
order. -/
theorem claim_C8_counterexample :
    tC8a.args.Perm tC8b.args ∧
    tC8a.Args (fun _ => none) = .err "named arg 'a' missing" ∧
    tC8b.Args (fun _ => none) = .err "named arg 'b' missing" ∧
    ("named arg 'a' missing" : String) ≠ "named arg 'b' missing" :=
  ⟨List.Perm.swap _ _ _, by decide, by decide, by decide⟩

/-- The merged mapping for the C8 witness: both names supplied. -/
def mpC8 : String → Option GoVal :=
  fun s => if s = "a" then some (.str "A") else if s = "b" then some (.str "B") else none

/-- Witness for the amended C8 at the two orders of the ":a :b" registry
with both names supplied. -/
theorem claim_C8_witness :
    (tC8a.args.Perm tC8b.args ∧ tC8a.argsCount = tC8b.argsCount ∧
     tC8a.args.Pairwise (fun e1 e2 => ∀ p ∈ e1.2.positions, p ∉ e2.2.positions) ∧
     (∀ e ∈ tC8a.args, ∀ p ∈ e.2.positions, p < tC8a.argsCount)) ∧
    ((∀ res res', tC8a.Args mpC8 = .ok res → tC8b.Args mpC8 = .ok res' → res = res') ∧
     ((∃ res, tC8a.Args mpC8 = .ok res) ↔ (∃ res, tC8b.Args mpC8 = .ok res)) ∧
     (∀ msg, tC8a.Args mpC8 = .err msg →
       ∃ e ∈ tC8a.args, mpC8 e.1 = none ∧ e.2.omissible = false ∧
         msg = "named arg '" ++ e.1 ++ "' missing")) :=
  ⟨⟨List.Perm.swap _ _ _, rfl, by decide, by decide⟩,
   claim_C8_order_independence tC8a tC8b mpC8 (List.Perm.swap _ _ _) rfl (by decide)
     (by decide)⟩

/-! ### Slice aliasing in GetArgsInfo -/

/-- A store of int-slice backing arrays: a Go slice value holds a
reference into this store, and copying a slice header (as a struct field
assignment does) copies the reference, not the array. -/
structure SliceHeap where
  cells : List (List Nat)

/-- Reading the backing array a slice reference designates. -/
def SliceHeap.read (h : SliceHeap) (ref : Nat) : List Nat :=
  h.cells.getD ref []

/-- Writing one element through a slice reference, modelling
`s[idx] = v` on a Go slice. -/
def SliceHeap.write (h : SliceHeap) (ref idx v : Nat) : SliceHeap :=
  { cells := h.cells.set ref ((h.cells.getD ref []).set idx v) }

/-- The `namedArg` of named_arg.go with its positions slice as a heap
reference. -/
structure NamedArgRef where
  tag : String
  positionsRef : Nat
  omissible : Bool
  nullableString : Bool

/-- The `ArgInfo` struct of named_arg.go with its Positions slice as a
heap reference. -/
structure ArgInfoRef where
  infoTag : String
  PositionsRef : Nat
  Omissible : Bool
  NullableString : Bool

/-- Model of `namedArg.toInfo` of named_arg.go: the assignment
`Positions: a.positions` copies the slice header, so the returned
ArgInfo shares its backing array reference with the registry entry. -/
def NamedArgRef.toInfo (a : NamedArgRef) : ArgInfoRef :=
  { infoTag := a.tag, PositionsRef := a.positionsRef, Omissible := a.omissible,
    NullableString := a.nullableString }

/-- Claim C5 (code bug): the ArgInfo data GetArgsInfo returns is not a
snapshot. toInfo shares the positions backing array, so a write through
the returned info's Positions slice changes what the template's registry
entry subsequently reads, contrary to the code's own "changing it has no
effect on the template" doc comment. Concretely, for the registry entry
of ":a :a" (positions [0, 1]) a caller's `info.Positions[0] = 1` makes
the template's own entry read [1, 1]. -/
theorem claim_C5_positions_alias :
    (∀ a : NamedArgRef, (a.toInfo).PositionsRef = a.positionsRef) ∧
    ((⟨[[0, 1]]⟩ : SliceHeap).write
        ((⟨"?", 0, false, false⟩ : NamedArgRef).toInfo).PositionsRef 0 1).read
      (⟨"?", 0, false, false⟩ : NamedArgRef).positionsRef = [1, 1] ∧
    (⟨[[0, 1]]⟩ : SliceHeap).read (⟨"?", 0, false, false⟩ : NamedArgRef).positionsRef
      = [0, 1] ∧
    ([1, 1] : List Nat) ≠ [0, 1] :=
  ⟨fun _ => rfl, rfl, rfl, by decide⟩
